import Mathlib

/-!
Verification of the bencode codec, torrent geometry, peer-wire codec,
tracker-URL construction and piece-download session of a BitTorrent
client, embedded shallowly from its Rust sources
(`src/bedecode.rs`, `src/torrent.rs`, `src/peer_messages.rs`,
`src/tracker_info.rs`, `src/bt_client.rs`).

Bytes are modelled as `Nat` (values < 256 where they come off a wire),
machine integers as `Nat` with explicit bounds checks where the source
performs fallible conversions, and panics of the source as `Except.error`.
-/

namespace Bt

/-! ## Bencode decoder (src/bedecode.rs) -/

/-- `NUMBER_HEADER`, the byte `'i'`. -/
def NUMBER_HEADER : Nat := 105

/-- `NUMBER_TRAILER` / `LIST_TRAILER` / `DICT_TRAILER`, the byte `'e'`. -/
def TRAILER : Nat := 101

/-- `LIST_HEADER`, the byte `'l'`. -/
def LIST_HEADER : Nat := 108

/-- `DICT_HEADER`, the byte `'d'`. -/
def DICT_HEADER : Nat := 100

/-- `u8::is_ascii_digit` on a byte value. -/
def isAsciiDigit (c : Nat) : Bool := 48 ≤ c && c ≤ 57

/-- `bedecode::Item`: each variant carries its raw token slice (`Field.raw`)
and its payload.  Dictionary entries are kept as an association list of
(key bytes, value); the Rust `HashMap<String, Item>` is modelled by
`dictInsert` below. -/
inductive Item : Type where
  | bytes (raw payload : List Nat)
  | number (raw payload : List Nat)
  | list (raw : List Nat) (items : List Item)
  | dict (raw : List Nat) (entries : List (List Nat × Item))

/-- `Item::raw_length`. -/
def Item.raw_length : Item → Nat
  | .bytes raw _ => raw.length
  | .number raw _ => raw.length
  | .list raw _ => raw.length
  | .dict raw _ => raw.length

/-- The raw token slice carried by an item. -/
def Item.raw : Item → List Nat
  | .bytes raw _ => raw
  | .number raw _ => raw
  | .list raw _ => raw
  | .dict raw _ => raw

/-- `HashMap::insert`: if the key is present its value is replaced,
otherwise the binding is added. -/
def dictInsert : List (List Nat × Item) → List Nat → Item → List (List Nat × Item)
  | [], k, v => [(k, v)]
  | (k₀, v₀) :: rest, k, v =>
    if k₀ = k then (k, v) :: rest else (k₀, v₀) :: dictInsert rest k v

/-- `HashMap::get` on the association-list model. -/
def dictGet : List (List Nat × Item) → List Nat → Option Item
  | [], _ => none
  | (k₀, v₀) :: rest, k => if k₀ = k then some v₀ else dictGet rest k

/-- `ItemIterator::decode_bytes`: a run of ASCII digits giving the length,
then (one byte standing for) `:` — the source never checks that this byte
is a colon — then that many raw bytes.  Out-of-range slicing in the source
is a panic, modelled as an error. -/
def decode_bytes (w : List Nat) : Except String (Item × List Nat) :=
  let number_len := (w.takeWhile (fun i => isAsciiDigit i)).length
  let len := Nat.ofDigits 10 ((w.take number_len).map (fun c => c - 48)).reverse
  if number_len + 1 + len ≤ w.length then
    .ok (.bytes (w.take (number_len + 1 + len))
          ((w.drop (number_len + 1)).take len),
         w.drop (number_len + 1 + len))
  else .error "panic: slice out of range in decode_bytes"

/-- `ItemIterator::decode_number`: everything between the `i` header and
the first `e` is taken as the payload with no validation at all; a missing
trailer is an out-of-range slice, i.e. a panic. -/
def decode_number (w : List Nat) : Except String (Item × List Nat) :=
  let payload_len := ((w.drop 1).takeWhile (fun i => i ≠ TRAILER)).length
  if payload_len + 2 ≤ w.length then
    .ok (.number (w.take (payload_len + 2)) ((w.drop 1).take payload_len),
         w.drop (payload_len + 2))
  else .error "panic: slice out of range in decode_number"

/-- UTF-8 validity of a byte list, as checked by `std::str::from_utf8`
when `decode_dict` turns a key into a `String` (failure there is a panic). -/
def isValidUtf8 : List Nat → Bool
  | [] => true
  | c :: rest =>
    if c < 128 then isValidUtf8 rest
    else if 194 ≤ c && c ≤ 223 then
      match rest with
      | c1 :: rest1 => 128 ≤ c1 && c1 ≤ 191 && isValidUtf8 rest1
      | _ => false
    else if c = 224 then
      match rest with
      | c1 :: c2 :: rest2 =>
        160 ≤ c1 && c1 ≤ 191 && (128 ≤ c2 && c2 ≤ 191) && isValidUtf8 rest2
      | _ => false
    else if 225 ≤ c && c ≤ 236 || c = 238 || c = 239 then
      match rest with
      | c1 :: c2 :: rest2 =>
        128 ≤ c1 && c1 ≤ 191 && (128 ≤ c2 && c2 ≤ 191) && isValidUtf8 rest2
      | _ => false
    else if c = 237 then
      match rest with
      | c1 :: c2 :: rest2 =>
        128 ≤ c1 && c1 ≤ 159 && (128 ≤ c2 && c2 ≤ 191) && isValidUtf8 rest2
      | _ => false
    else if c = 240 then
      match rest with
      | c1 :: c2 :: c3 :: rest3 =>
        144 ≤ c1 && c1 ≤ 191 && (128 ≤ c2 && c2 ≤ 191) &&
          (128 ≤ c3 && c3 ≤ 191) && isValidUtf8 rest3
      | _ => false
    else if 241 ≤ c && c ≤ 243 then
      match rest with
      | c1 :: c2 :: c3 :: rest3 =>
        128 ≤ c1 && c1 ≤ 191 && (128 ≤ c2 && c2 ≤ 191) &&
          (128 ≤ c3 && c3 ≤ 191) && isValidUtf8 rest3
      | _ => false
    else if c = 244 then
      match rest with
      | c1 :: c2 :: c3 :: rest3 =>
        128 ≤ c1 && c1 ≤ 143 && (128 ≤ c2 && c2 ≤ 191) &&
          (128 ≤ c3 && c3 ≤ 191) && isValidUtf8 rest3
      | _ => false
    else false

mutual

/-- `ItemIterator::decode_next`, with fuel making the recursion evident;
`decode_next` on an empty slice indexes past the end, a panic.  The bodies
of `decode_list` and `decode_dict` are inlined in the last two branches:
consume the header, decode items (resp. key/value pairs) until the trailer,
and record `raw` as the first `2 + Σ child raw length` bytes. -/
def decode_next : Nat → List Nat → Except String (Item × List Nat)
  | 0, _ => .error "out of fuel"
  | _ + 1, [] => .error "panic: index out of range in decode_next"
  | fuel + 1, c :: w =>
    if isAsciiDigit c then decode_bytes (c :: w)
    else if c = NUMBER_HEADER then decode_number (c :: w)
    else if c = LIST_HEADER then
      match decode_items fuel w with
      | .error e => .error e
      | .ok (items, len, rest) => .ok (.list ((c :: w).take (2 + len)) items, rest)
    else if c = DICT_HEADER then
      match decode_entries fuel w with
      | .error e => .error e
      | .ok (pairs, len, rest) =>
        .ok (.dict ((c :: w).take (2 + len))
              (pairs.foldl (fun m p => dictInsert m p.1.2 p.2) []), rest)
    else .error "unknown field header"
termination_by structural fuel => fuel

/-- The `while` loop of `ItemIterator::decode_list`: returns the items, the
sum of their raw lengths, and the input past the trailer. -/
def decode_items (fuel : Nat) (w : List Nat) :
    Except String (List Item × Nat × List Nat) :=
  match fuel, w with
  | _, [] => .error "panic: index out of range in decode_list"
  | 0, _ => .error "out of fuel"
  | fuel + 1, c :: w =>
    if c = TRAILER then .ok ([], 0, w)
    else
      match decode_next fuel (c :: w) with
      | .error e => .error e
      | .ok (item, rest) =>
        match decode_items fuel rest with
        | .error e => .error e
        | .ok (items, len, rest') =>
          .ok (item :: items, item.raw_length + len, rest')
termination_by structural fuel

/-- The `while` loop of `ItemIterator::decode_dict`: keys must be byte
strings with UTF-8-valid payloads (`from_utf8` panics otherwise); returns
the parsed ((key raw, key payload), value) pairs in input order, the sum of
the raw lengths of key and value tokens, and the input past the trailer.
The caller folds the pairs through `dictInsert` exactly as the source's
loop calls `HashMap::insert`. -/
def decode_entries (fuel : Nat) (w : List Nat) :
    Except String (List ((List Nat × List Nat) × Item) × Nat × List Nat) :=
  match fuel, w with
  | _, [] => .error "panic: index out of range in decode_dict"
  | 0, _ => .error "out of fuel"
  | fuel + 1, c :: w =>
    if c = TRAILER then .ok ([], 0, w)
    else
      match decode_next fuel (c :: w) with
      | .error e => .error e
      | .ok (.bytes kraw kpayload, rest) =>
        if isValidUtf8 kpayload then
          match decode_next fuel rest with
          | .error e => .error e
          | .ok (value, rest') =>
            match decode_entries fuel rest' with
            | .error e => .error e
            | .ok (pairs, len, rest'') =>
              .ok (((kraw, kpayload), value) :: pairs,
                   kraw.length + (value.raw_length + len), rest'')
        else .error "panic: invalid utf8 in dict key"
      | .ok (_, _) => .error "can't decode key for dict"
termination_by structural fuel

end

/-- Extract, from a decode result that is a dictionary, the digits payload of
the number bound to key `k` (used to observe which duplicate occurrence the
decoder kept). -/
def dictNumberPayload (res : Except String (Item × List Nat)) (k : List Nat) :
    Option (List Nat) :=
  match res with
  | .ok (.dict _ entries, _) =>
    match dictGet entries k with
    | some (.number _ p) => some p
    | _ => none
  | _ => none

/-- The bytes of `d1:ai1e1:ai2ee`: a dictionary in which key `a` occurs
twice, first bound to `i1e`, then to `i2e`. -/
def dupKeyInput : List Nat := [100, 49, 58, 97, 105, 49, 101, 49, 58, 97, 105, 50, 101, 101]

mutual

/-- All nodes of a decoded tree (the item itself and, recursively, the
items of its lists and the values of its dictionaries). -/
def Item.nodes : Item → List Item
  | .bytes r p => [.bytes r p]
  | .number r p => [.number r p]
  | .list r its => .list r its :: nodesList its
  | .dict r es => .dict r es :: nodesEntries es

/-- Nodes of all items of a list. -/
def nodesList : List Item → List Item
  | [] => []
  | it :: rest => it.nodes ++ nodesList rest

/-- Nodes of all values of a dictionary. -/
def nodesEntries : List (List Nat × Item) → List Item
  | [] => []
  | e :: rest => e.2.nodes ++ nodesEntries rest

end

/-- The framing invariant of a single node: a list's raw token is the
header byte, the concatenation of its children's raw tokens, and the
trailer byte; a dictionary's raw token is the same for the parse-order
sequence of key tokens and value tokens, of which the entry map is the
`HashMap::insert` fold. -/
def FrameOk : Item → Prop
  | .bytes _ _ => True
  | .number _ _ => True
  | .list raw its => raw = LIST_HEADER :: (its.map Item.raw).flatten ++ [TRAILER]
  | .dict raw es => ∃ pairs : List ((List Nat × List Nat) × Item),
      raw = DICT_HEADER :: (pairs.map (fun p => p.1.1 ++ p.2.raw)).flatten ++ [TRAILER] ∧
      es = pairs.foldl (fun m p => dictInsert m p.1.2 p.2) []

/-! ## Torrent model and geometry (src/torrent.rs) -/

/-- `torrent::File`. -/
structure TorrentFile : Type where
  length : Nat
  path : List (List Nat)
deriving DecidableEq

/-- `torrent::Keys`: exactly one of `length` (single file) or `files`. -/
inductive Keys : Type where
  | singleFile (length : Nat)
  | multiFile (files : List TorrentFile)
deriving DecidableEq

/-- `torrent::Info`. -/
structure Info : Type where
  name : List Nat
  piece_length : Nat
  pieces : List (List Nat)
  keys : Keys
deriving DecidableEq

/-- `torrent::Torrent`. -/
structure Torrent : Type where
  announce : List Nat
  info : Info
deriving DecidableEq

/-- `Torrent::total_len`. -/
def Torrent.total_len (t : Torrent) : Nat :=
  match t.info.keys with
  | .singleFile length => length
  | .multiFile files => (files.map TorrentFile.length).sum

/-- `Torrent::piece_length` (the `u32`-to-`usize` conversion never fails). -/
def Torrent.piece_length (t : Torrent) : Nat := t.info.piece_length

/-- `Torrent::pieces_count`. -/
def Torrent.pieces_count (t : Torrent) : Nat := t.info.pieces.length

/-- `Torrent::last_piece_size`.  (The source computes `total_len %
piece_length`, which panics in Rust when `piece_length = 0`; all uses
assume a positive piece length.) -/
def Torrent.last_piece_size (t : Torrent) : Nat :=
  if t.total_len % t.piece_length = 0 then t.piece_length
  else t.total_len % t.piece_length

/-- `torrent::PieceInfo`. -/
structure PieceInfo : Type where
  index : Nat
  offset : Nat
  length : Nat
deriving DecidableEq

/-- `torrent::BlockInfo`. -/
structure BlockInfo : Type where
  offset : Nat
  length : Nat
deriving DecidableEq

/-- `Torrent::pieces_info`: the source pushes one entry per loop
iteration over `0..pieces_count`. -/
def Torrent.pieces_info (t : Torrent) : List PieceInfo :=
  (List.range t.pieces_count).map fun i =>
    { index := i
      offset := i * t.piece_length
      length := if i = t.pieces_count - 1 then t.last_piece_size else t.piece_length }

/-- `Torrent::blocks_info`. -/
def Torrent.blocks_info (t : Torrent) (piece_index block_size : Nat) :
    Option (List BlockInfo) :=
  match (t.pieces_info)[piece_index]? with
  | none => none
  | some pi =>
    let blocks_count := (pi.length + block_size - 1) / block_size
    some ((List.range blocks_count).map fun i =>
      { offset := i * block_size
        length := if i = blocks_count - 1 then
            (if pi.length % block_size = 0 then block_size
             else pi.length % block_size)
          else block_size })

/-- A concrete torrent used to instantiate geometry theorems: single file
of 300 bytes, piece length 100, three 20-byte piece digests. -/
def sampleTorrent : Torrent :=
  { announce := []
    info :=
      { name := []
        piece_length := 100
        pieces := List.replicate 3 (List.replicate 20 0)
        keys := .singleFile 300 } }

/-! ## Peer wire codec (src/peer_messages.rs) -/

/-- `peer_messages::Extension`. -/
inductive Extension : Type where
  | none
  | magnetLink
deriving DecidableEq

/-- `Extension::to_bytes`. -/
def Extension.to_bytes : Extension → List Nat
  | .none => List.replicate 8 0
  | .magnetLink => [0, 0, 0, 0, 0, 16, 0, 0]

/-- `From<&[u8; 8]> for Extension`: only the exact magnet pattern maps to
`MagnetLink`, everything else to `None`. -/
def Extension.from_bytes (value : List Nat) : Extension :=
  if value = [0, 0, 0, 0, 0, 16, 0, 0] then .magnetLink else .none

/-- The 19 bytes of `"BitTorrent protocol"`. -/
def protocolBytes : List Nat :=
  [66, 105, 116, 84, 111, 114, 114, 101, 110, 116, 32, 112, 114, 111, 116, 111, 99, 111, 108]

/-- `peer_messages::Handshake`. -/
structure Handshake : Type where
  info_hash : List Nat
  peer_id : List Nat
  extension : Extension
deriving DecidableEq

/-- `Handshake::to_bytes`: length byte 19, protocol string, 8 capability
bytes, 20-byte info hash, 20-byte peer id. -/
def Handshake.to_bytes (h : Handshake) : List Nat :=
  (19 :: protocolBytes) ++ h.extension.to_bytes ++ h.info_hash ++ h.peer_id

/-- `From<&[u8; 68]> for Handshake`. -/
def Handshake.from_bytes (value : List Nat) : Handshake :=
  { info_hash := (value.drop 28).take 20
    peer_id := (value.drop 48).take 20
    extension := Extension.from_bytes ((value.drop 20).take 8) }

/-- `peer_messages::Message`.  The `Extension` variant's bencoded
`ExtensionsInfo` payload is deserialized by the external `serde_bencode`
crate in the source; the model keeps the raw payload bytes. -/
inductive Message : Type where
  | bitField (payload : List Nat)
  | interested
  | choke
  | unchoke
  | request (index begin length : Nat)
  | piece (index begin : Nat) (block : List Nat)
  | extension (payload : List Nat)
deriving DecidableEq

/-- `u32::from_be_bytes`. -/
def be32 (b0 b1 b2 b3 : Nat) : Nat := ((b0 * 256 + b1) * 256 + b2) * 256 + b3

/-- `u32::to_be_bytes` (arguments are `u32` values, i.e. `< 2^32`). -/
def toBE32 (n : Nat) : List Nat :=
  [n / 16777216 % 256, n / 65536 % 256, n / 256 % 256, n % 256]

/-- `Message::usize_to_u32_be_bytes`: fails when the value does not fit
in a `u32`. -/
def usize_to_u32_be_bytes (input : Nat) : Except String (List Nat) :=
  if input < 4294967296 then .ok (toBE32 input) else .error "u32 does not fit"

/-- `Message::to_bytes`. -/
def Message.to_bytes : Message → Except String (List Nat)
  | .choke => .ok [0, 0, 0, 1, 0]
  | .unchoke => .ok [0, 0, 0, 1, 1]
  | .interested => .ok [0, 0, 0, 1, 2]
  | .bitField payload =>
    match usize_to_u32_be_bytes (payload.length + 1) with
    | .error e => .error e
    | .ok len => .ok (len ++ 5 :: payload)
  | .request index begin length =>
    .ok ([0, 0, 0, 13, 6] ++ toBE32 index ++ toBE32 begin ++ toBE32 length)
  | .piece index begin block =>
    match usize_to_u32_be_bytes (block.length + 9) with
    | .error e => .error e
    | .ok len => .ok (len ++ 7 :: (toBE32 index ++ toBE32 begin ++ block))
  | .extension payload =>
    match usize_to_u32_be_bytes (payload.length + 2) with
    | .error e => .error e
    | .ok len => .ok (len ++ 20 :: 0 :: payload)

/-- `Message::from_bytes`: inputs shorter than 5 bytes are rejected; the
byte at index 4 is the id; a `Request` must be exactly 17 bytes and a
`Piece` at least 13, otherwise the catch-all arm rejects the id. -/
def Message.from_bytes (input : List Nat) : Except String Message :=
  match input with
  | b0 :: b1 :: b2 :: b3 :: id :: rest =>
    if id = 0 then .ok .choke
    else if id = 1 then .ok .unchoke
    else if id = 2 then .ok .interested
    else if id = 5 then .ok (.bitField rest)
    else if id = 6 then
      match rest with
      | [i0, i1, i2, i3, g0, g1, g2, g3, l0, l1, l2, l3] =>
        .ok (.request (be32 i0 i1 i2 i3) (be32 g0 g1 g2 g3) (be32 l0 l1 l2 l3))
      | _ => .error "unrecognized message id: 6 or invalid message length"
    else if id = 7 then
      match rest with
      | i0 :: i1 :: i2 :: i3 :: g0 :: g1 :: g2 :: g3 :: block =>
        .ok (.piece (be32 i0 i1 i2 i3) (be32 g0 g1 g2 g3) block)
      | _ => .error "unrecognized message id: 7 or invalid message length"
    else if id = 20 then
      match rest with
      | _ :: payload => .ok (.extension payload)
      | [] => .error "panic: slice start out of range"
    else .error "unrecognized message id or invalid message length"
  | _ => .error "minimum message len is 5"

/-- `Message::read_from`: reads a fixed 5-byte mark (4-byte big-endian
length plus one more byte taken as the id), then for ids 5, 6, 7, 20
builds a `4 + len` buffer — which panics when `len = 0`, since the 5-byte
mark cannot be copied into it — reads the remaining `len - 1` bytes, and
parses the whole frame; for ids 0-2 it parses the mark alone, consuming
exactly 5 bytes no matter the declared length. -/
def Message.read_from (input : List Nat) : Except String (Message × List Nat) :=
  match input with
  | b0 :: b1 :: b2 :: b3 :: id :: rest =>
    let len := be32 b0 b1 b2 b3
    if id ≤ 2 then
      match Message.from_bytes [b0, b1, b2, b3, id] with
      | .error e => .error e
      | .ok m => .ok (m, rest)
    else if id = 5 ∨ id = 6 ∨ id = 7 ∨ id = 20 then
      if len = 0 then .error "panic: copy_from_slice length mismatch"
      else if rest.length < len - 1 then
        .error "reading exact number of bytes from the reader"
      else
        match Message.from_bytes ([b0, b1, b2, b3, id] ++ rest.take (len - 1)) with
        | .error e => .error e
        | .ok m => .ok (m, rest.drop (len - 1))
    else .error "unrecognized message id"
  | _ => .error "reading from input"

/-- A concrete handshake used to instantiate the round-trip theorem. -/
def sampleHandshake : Handshake :=
  { info_hash := List.replicate 20 1
    peer_id := List.replicate 20 2
    extension := .magnetLink }

/-! ## SHA-1 (modelled from the spec: the SHA-1 primitive is an external
collaborator — the `sha1` crate wrapped by src/sha1.rs — so it is modelled
here from the standard, FIPS 180 SHA-1 over a byte list) -/

/-- 64-bit big-endian bytes of a value. -/
def toBE64 (n : Nat) : List Nat :=
  [n / 2 ^ 56 % 256, n / 2 ^ 48 % 256, n / 2 ^ 40 % 256, n / 2 ^ 32 % 256,
   n / 16777216 % 256, n / 65536 % 256, n / 256 % 256, n % 256]

/-- 32-bit left rotation (for `x < 2^32`). -/
def rotl32 (n x : Nat) : Nat := (x * 2 ^ n + x / 2 ^ (32 - n)) % 4294967296

/-- SHA-1 padding: a `0x80` byte, zeros to 56 mod 64, 64-bit bit length. -/
def sha1pad (msg : List Nat) : List Nat :=
  msg ++ 128 :: List.replicate ((64 - (msg.length + 9) % 64) % 64) 0 ++
    toBE64 (msg.length * 8)

/-- Split into 64-byte chunks (the fuel bounds the number of chunks). -/
def chunks64 : Nat → List Nat → List (List Nat)
  | 0, _ => []
  | _, [] => []
  | fuel + 1, l => l.take 64 :: chunks64 fuel (l.drop 64)

/-- Group bytes into big-endian 32-bit words. -/
def words32 : List Nat → List Nat
  | b0 :: b1 :: b2 :: b3 :: rest => be32 b0 b1 b2 b3 :: words32 rest
  | _ => []

/-- The 80-word SHA-1 message schedule of one chunk. -/
def sha1schedule (chunk : List Nat) : List Nat :=
  (List.range 64).foldl
    (fun w _ => w ++ [rotl32 1 ((w.getD (w.length - 3) 0) ^^^ (w.getD (w.length - 8) 0) ^^^
      (w.getD (w.length - 14) 0) ^^^ (w.getD (w.length - 16) 0))])
    (words32 chunk)

/-- One SHA-1 compression round over a 64-byte chunk. -/
def sha1compress (h : Nat × Nat × Nat × Nat × Nat) (chunk : List Nat) :
    Nat × Nat × Nat × Nat × Nat :=
  let ws := sha1schedule chunk
  let res := (List.range 80).foldl
    (fun (st : Nat × Nat × Nat × Nat × Nat) i =>
      let f := if i < 20 then (st.2.1 &&& st.2.2.1) ||| ((4294967295 - st.2.1) &&& st.2.2.2.1)
        else if i < 40 then st.2.1 ^^^ st.2.2.1 ^^^ st.2.2.2.1
        else if i < 60 then
          (st.2.1 &&& st.2.2.1) ||| (st.2.1 &&& st.2.2.2.1) ||| (st.2.2.1 &&& st.2.2.2.1)
        else st.2.1 ^^^ st.2.2.1 ^^^ st.2.2.2.1
      let k := if i < 20 then 1518500249 else if i < 40 then 1859775393
        else if i < 60 then 2400959708 else 3395469782
      let temp := (rotl32 5 st.1 + f + st.2.2.2.2 + k + ws.getD i 0) % 4294967296
      (temp, st.1, rotl32 30 st.2.1, st.2.2.1, st.2.2.2.1))
    h
  ((h.1 + res.1) % 4294967296, (h.2.1 + res.2.1) % 4294967296,
   (h.2.2.1 + res.2.2.1) % 4294967296, (h.2.2.2.1 + res.2.2.2.1) % 4294967296,
   (h.2.2.2.2 + res.2.2.2.2) % 4294967296)

/-- SHA-1 of a byte list. -/
def sha1 (msg : List Nat) : List Nat :=
  let padded := sha1pad msg
  let hs := (chunks64 (padded.length + 1) padded).foldl sha1compress
    (1732584193, 4023233417, 2562383102, 271733878, 3285377520)
  toBE32 hs.1 ++ toBE32 hs.2.1 ++ toBE32 hs.2.2.1 ++ toBE32 hs.2.2.2.1 ++
    toBE32 hs.2.2.2.2

/-- Modelled from the spec: `sha1::hash` (src/sha1.rs) wraps the external
`sha1` crate; the 20-byte digest of a byte slice. -/
def hash (bytes : List Nat) : List Nat := sha1 bytes

/-! ## Piece-download session (src/bt_client.rs) -/

/-- `bt_client::state::State`. -/
inductive SessState : Type where
  | waitingForBitField
  | waitingForUnchoke
  | waitingForPieceBlock
deriving DecidableEq

/-- The session's mutable state in `piece_download`: the current machine
state, the piece buffer, and the set of collected `(begin, length)` block
keys. -/
structure PDState : Type where
  state : SessState
  piece : List Nat
  collected_blocks : List (Nat × Nat)
deriving DecidableEq

/-- `HashSet::insert` on the list model: adds the key only when absent. -/
def hsInsert (key : Nat × Nat) (s : List (Nat × Nat)) : List (Nat × Nat) :=
  if key ∈ s then s else key :: s

/-- The loop's completion measure: `collected_blocks.iter().map(|k| k.1 as
usize).sum()`. -/
def collectedSum (s : List (Nat × Nat)) : Nat := (s.map Prod.snd).sum

/-- `piece[begin..begin + block.len()].copy_from_slice(&block)` (callers
check the bounds; out of range is a panic). -/
def setRange (piece : List Nat) (begin : Nat) (block : List Nat) : List Nat :=
  piece.take begin ++ block ++ piece.drop (begin + block.length)

/-- The `for block_info in blocks_info` loop of the Unchoke arm: one
`Request` per block, in block order, after the fallible `usize`-to-`u32`
conversions of offset and length. -/
def build_requests (index : Nat) : List BlockInfo → Except String (List Message)
  | [] => .ok []
  | b :: rest =>
    if b.offset < 4294967296 then
      if b.length < 4294967296 then
        match build_requests index rest with
        | .error e => .error e
        | .ok reqs => .ok (.request index b.offset b.length :: reqs)
      else .error "usize does not fit in u32"
    else .error "usize does not fit in u32"

/-- One iteration of the `match (&state, msg)` in
`BtClient::piece_download`: returns the next session state and the
messages written to the stream; any pairing not matched by the three
expected arms falls to the catch-all `unexpected message received` error,
never a silent skip. -/
def pd_step (block_size : Nat) (t : Torrent) (index : Nat) (st : PDState)
    (msg : Message) : Except String (PDState × List Message) :=
  match st.state, msg with
  | .waitingForBitField, .bitField _ =>
    .ok ({ st with state := .waitingForUnchoke }, [.interested])
  | .waitingForUnchoke, .unchoke =>
    match t.blocks_info index block_size with
    | .none => .error "no piece at this index"
    | .some blocks =>
      match build_requests index blocks with
      | .error e => .error e
      | .ok reqs => .ok ({ st with state := .waitingForPieceBlock }, reqs)
  | .waitingForPieceBlock, .piece piece_index begin block =>
    if piece_index = index then
      if begin + block.length ≤ st.piece.length then
        .ok ({ st with
                piece := setRange st.piece begin block
                collected_blocks := hsInsert (begin, block.length) st.collected_blocks },
             [])
      else .error "panic: copy_from_slice range out of bounds"
    else .error "unexpected message received"
  | _, _ => .error "unexpected message received"

/-- The `loop` of `piece_download`: the completion sum is checked before
each `Message::read_from`; on completion the piece buffer is returned
together with all messages sent so far. -/
def pd_loop (block_size : Nat) (t : Torrent) (index : Nat) :
    Nat → List Nat → PDState → List Message → Except String (List Nat × List Message)
  | 0, _, _, _ => .error "out of fuel"
  | fuel + 1, stream, st, sent =>
    if collectedSum st.collected_blocks = st.piece.length then .ok (st.piece, sent)
    else
      match Message.read_from stream with
      | .error e => .error e
      | .ok (msg, stream2) =>
        match pd_step block_size t index st msg with
        | .error e => .error e
        | .ok (st2, out) => pd_loop block_size t index fuel stream2 st2 (sent ++ out)

/-- `BtClient::piece_download` over a byte stream: look up the piece size,
start the machine in `WaitingForBitField` with a zeroed buffer and no
collected blocks.  (Each loop iteration consumes at least 5 stream bytes,
so `stream.length + 1` fuel is never exhausted before a read fails.) -/
def piece_download (block_size : Nat) (t : Torrent) (index : Nat)
    (stream : List Nat) : Except String (List Nat × List Message) :=
  match (t.pieces_info)[index]? with
  | .none => .error "no piece at this index"
  | .some pi =>
    pd_loop block_size t index (stream.length + 1) stream
      { state := .waitingForBitField
        piece := List.replicate pi.length 0
        collected_blocks := [] } []

/-- The claim's notion of the message a state expects: BitField in the
initial state, Unchoke next, then Piece messages for the target index. -/
def expectedMsg (index : Nat) : SessState → Message → Prop
  | .waitingForBitField, .bitField _ => True
  | .waitingForUnchoke, .unchoke => True
  | .waitingForPieceBlock, .piece i _ _ => i = index
  | _, _ => False

/-- A 3-byte single-piece torrent whose only piece digest is 20 zero bytes
(not the SHA-1 of any delivered data). -/
def mismatchTorrent : Torrent :=
  { announce := []
    info :=
      { name := []
        piece_length := 3
        pieces := [List.replicate 20 0]
        keys := .singleFile 3 } }

/-- A peer script delivering BitField, Unchoke, then the 3-byte block
`[1, 2, 3]` of piece 0. -/
def mismatchStream : List Nat :=
  [0, 0, 0, 1, 5] ++ [0, 0, 0, 1, 1] ++
    [0, 0, 0, 12, 7, 0, 0, 0, 0, 0, 0, 0, 0, 1, 2, 3]

/-! ## Tracker URL (src/tracker_info.rs, src/bt_client.rs) -/

/-- `bt_client::PEER_ID` / `tracker_info::PEER_ID`. -/
def PEER_ID : String := "alice_is_1_feet_tall"

/-- One lowercase hex digit, as emitted by `hex::encode`. -/
def hexChar (n : Nat) : Char :=
  if n < 10 then Char.ofNat (48 + n) else Char.ofNat (87 + n)

/-- `hex::encode`: two lowercase hex characters per byte. -/
def hexEncode (bytes : List Nat) : List Char :=
  (bytes.map (fun b => [hexChar (b / 16), hexChar (b % 16)])).flatten

/-- `.chars().collect().chunks(2)`. -/
def chunks2 : List Char → List (List Char)
  | c1 :: c2 :: rest => [c1, c2] :: chunks2 rest
  | [c] => [[c]]
  | [] => []

/-- The percent-encoded info hash of `tracker_url`: hex-encode, chunk the
characters in twos, prefix each chunk with `%`, concatenate. -/
def info_hash_param (info_hash : List Nat) : List Char :=
  ((chunks2 (hexEncode info_hash)).map (fun i => '%' :: i)).flatten

/-- An uppercase hex digit. -/
def hexUpperChar (n : Nat) : Char :=
  if n < 10 then Char.ofNat (48 + n) else Char.ofNat (55 + n)

/-- Modelled from the spec: the query-pair serializer of the external
`url` crate used by `Url::parse_with_params` (www-form-urlencoded):
alphanumerics and `*-._` pass through, space becomes `+`, anything else is
percent-encoded in uppercase hex. -/
def formUrlEncodeChar (c : Char) : List Char :=
  if (('0' ≤ c ∧ c ≤ '9') ∨ ('a' ≤ c ∧ c ≤ 'z') ∨ ('A' ≤ c ∧ c ≤ 'Z') ∨
      c = '*' ∨ c = '-' ∨ c = '.' ∨ c = '_') then [c]
  else if c = ' ' then ['+']
  else ['%', hexUpperChar (c.toNat / 16), hexUpperChar (c.toNat % 16)]

/-- Decimal digits of a `usize`, as printed by `to_string`. -/
def natDigitsAux : Nat → Nat → List Char
  | 0, _ => []
  | fuel + 1, n =>
    if n < 10 then [Char.ofNat (48 + n)]
    else natDigitsAux fuel (n / 10) ++ [Char.ofNat (48 + n % 10)]

/-- `usize::to_string`. -/
def natChars (n : Nat) : List Char := natDigitsAux (n + 1) n

/-- One `&key=value` query pair as appended by `parse_with_params`. -/
def encodePair (p : List Char × List Char) : List Char :=
  '&' :: (((p.1.map formUrlEncodeChar).flatten) ++
    '=' :: ((p.2.map formUrlEncodeChar).flatten))

/-- The six fixed query pairs of `tracker_url`; `left` is `to_string` of
the value, or `"0"` when absent (`map_or_else`). -/
def trackerParams (left : Option Nat) : List (List Char × List Char) :=
  [("peer_id".data, PEER_ID.data),
   ("port".data, "6881".data),
   ("uploaded".data, "0".data),
   ("downloaded".data, "0".data),
   ("left".data, match left with | .none => "0".data | .some i => natChars i),
   ("compact".data, "1".data)]

/-- `tracker_url` (src/tracker_info.rs; `BtClient::tracker_url` is the
same with `left : Option<usize>`): the base string
`<announce>?info_hash=<percent-encoded hash>` handed to
`Url::parse_with_params`, which appends the six pairs form-urlencoded.
The external `url` crate's parse is modelled as the identity on an
already-normalized base URL. -/
def tracker_url (announce_url : List Char) (info_hash : List Nat)
    (left : Option Nat) : List Char :=
  announce_url ++ "?info_hash=".data ++ info_hash_param info_hash ++
    ((trackerParams left).map encodePair).flatten

/-- The Scenario D info hash `a18a79fa44e045b1e13879166d35823e848419f8`. -/
def scenarioHash : List Nat :=
  [161, 138, 121, 250, 68, 224, 69, 177, 225, 56, 121, 22, 109, 53, 130, 62,
   132, 132, 25, 248]

theorem Item.raw_length_eq (it : Item) : it.raw_length = it.raw.length := by
  cases it <;> rfl

theorem mem_nodesList {x : Item} {its : List Item} :
    x ∈ nodesList its ↔ ∃ it ∈ its, x ∈ it.nodes := by
  induction its with
  | nil => simp [nodesList]
  | cons it rest ih => simp [nodesList, ih]

theorem mem_nodesEntries {x : Item} {es : List (List Nat × Item)} :
    x ∈ nodesEntries es ↔ ∃ e ∈ es, x ∈ e.2.nodes := by
  induction es with
  | nil => simp [nodesEntries]
  | cons e rest ih => simp [nodesEntries, ih]

theorem mem_dictInsert {e : List Nat × Item} {entries : List (List Nat × Item)}
    {k : List Nat} {v : Item} (h : e ∈ dictInsert entries k v) :
    e ∈ entries ∨ e = (k, v) := by
  induction entries with
  | nil => simpa [dictInsert] using h
  | cons e₀ rest ih =>
    obtain ⟨k₀, v₀⟩ := e₀
    by_cases hk : k₀ = k
    · rw [dictInsert, if_pos hk] at h
      rcases List.mem_cons.mp h with h1 | h1
      · exact .inr h1
      · exact .inl (List.mem_cons_of_mem _ h1)
    · rw [dictInsert, if_neg hk] at h
      rcases List.mem_cons.mp h with h1 | h1
      · exact .inl (h1 ▸ List.mem_cons_self _ _)
      · rcases ih h1 with h2 | h2
        · exact .inl (List.mem_cons_of_mem _ h2)
        · exact .inr h2

theorem mem_foldl_dictInsert {pairs : List ((List Nat × List Nat) × Item)} :
    ∀ {m : List (List Nat × Item)} {e : List Nat × Item},
      e ∈ pairs.foldl (fun m p => dictInsert m p.1.2 p.2) m →
      e ∈ m ∨ ∃ p ∈ pairs, e = (p.1.2, p.2) := by
  induction pairs with
  | nil => intro m e h; exact .inl h
  | cons p rest ih =>
    intro m e h
    rw [List.foldl_cons] at h
    rcases ih h with h1 | h1
    · rcases mem_dictInsert h1 with h2 | h2
      · exact .inl h2
      · exact .inr ⟨p, List.mem_cons_self _ _, h2⟩
    · obtain ⟨q, hq, he⟩ := h1
      exact .inr ⟨q, List.mem_cons_of_mem _ hq, he⟩

/-- Master invariant of the decoder, proved for the three mutually
recursive functions at once: a successful decode consumes exactly the raw
token it records (`raw ++ rest = input`), every node's raw slice occurs
contiguously in the input, and every node satisfies the framing invariant
`FrameOk`. -/
theorem decode_spec (fuel : Nat) :
    (∀ w it rest, decode_next fuel w = .ok (it, rest) →
       it.raw ++ rest = w ∧ ∀ n ∈ it.nodes, n.raw <:+: w ∧ FrameOk n) ∧
    (∀ w items len rest, decode_items fuel w = .ok (items, len, rest) →
       (items.map Item.raw).flatten ++ TRAILER :: rest = w ∧
       len = ((items.map Item.raw).flatten).length ∧
       ∀ n ∈ nodesList items, n.raw <:+: w ∧ FrameOk n) ∧
    (∀ w pairs len rest, decode_entries fuel w = .ok (pairs, len, rest) →
       (pairs.map (fun p => p.1.1 ++ p.2.raw)).flatten ++ TRAILER :: rest = w ∧
       len = ((pairs.map (fun p => p.1.1 ++ p.2.raw)).flatten).length ∧
       ∀ n, (∃ p ∈ pairs, n ∈ p.2.nodes) → n.raw <:+: w ∧ FrameOk n) := by
  induction fuel with
  | zero =>
    refine ⟨?_, ?_, ?_⟩
    · intro w it rest h
      simp [decode_next] at h
    · intro w items len rest h
      cases w <;> simp [decode_items] at h
    · intro w pairs len rest h
      cases w <;> simp [decode_entries] at h
  | succ fuel ih =>
    obtain ⟨ihN, ihI, ihE⟩ := ih
    have hBytes : ∀ w it rest, decode_bytes w = .ok (it, rest) →
        it.raw ++ rest = w ∧ ∀ n ∈ it.nodes, n.raw <:+: w ∧ FrameOk n := by
      intro w it rest h
      rw [decode_bytes] at h
      split at h
      · rw [Except.ok.injEq, Prod.mk.injEq] at h
        obtain ⟨h1, h2⟩ := h
        subst h1; subst h2
        refine ⟨List.take_append_drop _ _, ?_⟩
        intro n hn
        rw [show Item.nodes (.bytes (w.take _) ((w.drop _).take _)) =
              [.bytes (w.take _) ((w.drop _).take _)] from rfl] at hn
        rw [List.mem_singleton] at hn
        subst hn
        exact ⟨(List.take_prefix _ _).isInfix, trivial⟩
      · exact absurd h (by simp)
    have hNumber : ∀ w it rest, decode_number w = .ok (it, rest) →
        it.raw ++ rest = w ∧ ∀ n ∈ it.nodes, n.raw <:+: w ∧ FrameOk n := by
      intro w it rest h
      rw [decode_number] at h
      split at h
      · rw [Except.ok.injEq, Prod.mk.injEq] at h
        obtain ⟨h1, h2⟩ := h
        subst h1; subst h2
        refine ⟨List.take_append_drop _ _, ?_⟩
        intro n hn
        rw [show Item.nodes (.number (w.take _) ((w.drop 1).take _)) =
              [.number (w.take _) ((w.drop 1).take _)] from rfl] at hn
        rw [List.mem_singleton] at hn
        subst hn
        exact ⟨(List.take_prefix _ _).isInfix, trivial⟩
      · exact absurd h (by simp)
    refine ⟨?_, ?_, ?_⟩
    · -- decode_next
      intro w it rest h
      match w with
      | [] => exact absurd h (by simp [decode_next])
      | c :: w =>
        rw [decode_next] at h
        by_cases h1 : isAsciiDigit c
        · rw [if_pos h1] at h
          exact hBytes _ _ _ h
        · rw [if_neg h1] at h
          by_cases h2 : c = NUMBER_HEADER
          · rw [if_pos h2] at h
            exact hNumber _ _ _ h
          · rw [if_neg h2] at h
            by_cases h3 : c = LIST_HEADER
            · rw [if_pos h3] at h
              split at h
              · exact absurd h (by simp)
              · rename_i items len rest0 hI
                rw [Except.ok.injEq, Prod.mk.injEq] at h
                obtain ⟨h4, h5⟩ := h
                subst h4; subst h5
                obtain ⟨hj, hl, hn⟩ := ihI w items len rest0 hI
                have hraw : (c :: w).take (2 + len) =
                    c :: (items.map Item.raw).flatten ++ [TRAILER] := by
                  subst hl
                  rw [show 2 + ((items.map Item.raw).flatten).length =
                        (((items.map Item.raw).flatten).length + 1) + 1 by omega]
                  rw [List.take_succ_cons, ← hj]
                  rw [List.take_append_eq_append_take,
                      List.take_of_length_le (by omega)]
                  simp [Nat.add_sub_cancel_left]
                constructor
                · rw [show (Item.list ((c :: w).take (2 + len)) items).raw =
                        (c :: w).take (2 + len) from rfl, hraw, ← hj]
                  simp
                · intro n hm
                  rw [show (Item.list ((c :: w).take (2 + len)) items).nodes =
                        .list ((c :: w).take (2 + len)) items :: nodesList items
                      from rfl] at hm
                  rcases List.mem_cons.mp hm with hm | hm
                  · subst hm
                    constructor
                    · rw [show (Item.list ((c :: w).take (2 + len)) items).raw =
                            (c :: w).take (2 + len) from rfl]
                      exact (List.take_prefix _ _).isInfix
                    · rw [show FrameOk (.list ((c :: w).take (2 + len)) items) =
                            ((c :: w).take (2 + len) =
                              LIST_HEADER :: (items.map Item.raw).flatten ++ [TRAILER])
                          from rfl, hraw, h3]
                  · obtain ⟨hinf, hfr⟩ := hn n hm
                    exact ⟨hinf.trans (List.suffix_cons c w).isInfix, hfr⟩
            · by_cases h4 : c = DICT_HEADER
              · rw [if_neg h3, if_pos h4] at h
                split at h
                · exact absurd h (by simp)
                · rename_i pairs len rest0 hE
                  rw [Except.ok.injEq, Prod.mk.injEq] at h
                  obtain ⟨h5, h6⟩ := h
                  subst h5; subst h6
                  obtain ⟨hj, hl, hn⟩ := ihE w pairs len rest0 hE
                  have hraw : (c :: w).take (2 + len) =
                      c :: (pairs.map (fun p => p.1.1 ++ p.2.raw)).flatten ++ [TRAILER] := by
                    subst hl
                    rw [show 2 + ((pairs.map (fun p => p.1.1 ++ p.2.raw)).flatten).length =
                          (((pairs.map (fun p => p.1.1 ++ p.2.raw)).flatten).length + 1) + 1
                        by omega]
                    rw [List.take_succ_cons, ← hj]
                    rw [List.take_append_eq_append_take,
                        List.take_of_length_le (by omega)]
                    simp [Nat.add_sub_cancel_left]
                  constructor
                  · rw [show (Item.dict ((c :: w).take (2 + len))
                          (pairs.foldl (fun m p => dictInsert m p.1.2 p.2) [])).raw =
                          (c :: w).take (2 + len) from rfl, hraw, ← hj]
                    simp
                  · intro n hm
                    rw [show (Item.dict ((c :: w).take (2 + len))
                          (pairs.foldl (fun m p => dictInsert m p.1.2 p.2) [])).nodes =
                          .dict ((c :: w).take (2 + len))
                            (pairs.foldl (fun m p => dictInsert m p.1.2 p.2) []) ::
                            nodesEntries (pairs.foldl (fun m p => dictInsert m p.1.2 p.2) [])
                        from rfl] at hm
                    rcases List.mem_cons.mp hm with hm | hm
                    · subst hm
                      constructor
                      · rw [show (Item.dict ((c :: w).take (2 + len))
                              (pairs.foldl (fun m p => dictInsert m p.1.2 p.2) [])).raw =
                              (c :: w).take (2 + len) from rfl]
                        exact (List.take_prefix _ _).isInfix
                      · exact ⟨pairs, by rw [hraw, h4], rfl⟩
                    · obtain ⟨e, he, hne⟩ := mem_nodesEntries.mp hm
                      rcases mem_foldl_dictInsert he with h7 | h7
                      · exact absurd h7 (List.not_mem_nil e)
                      · obtain ⟨p, hp, hep⟩ := h7
                        have := hn n ⟨p, hp, by rw [hep] at hne; exact hne⟩
                        exact ⟨this.1.trans (List.suffix_cons c w).isInfix, this.2⟩
              · rw [if_neg h3, if_neg h4] at h
                exact absurd h (by simp)
    · -- decode_items
      intro w items len rest h
      match w with
      | [] => exact absurd h (by simp [decode_items])
      | c :: w =>
        rw [decode_items] at h
        by_cases hc : c = TRAILER
        · rw [if_pos hc] at h
          rw [Except.ok.injEq, Prod.mk.injEq, Prod.mk.injEq] at h
          obtain ⟨h1, h2, h3⟩ := h
          subst h1; subst h2; subst h3
          refine ⟨by simp [hc], by simp, ?_⟩
          intro n hn
          exact absurd hn (by simp [nodesList])
        · rw [if_neg hc] at h
          split at h
          · exact absurd h (by simp)
          · rename_i item rest1 hN
            split at h
            · exact absurd h (by simp)
            · rename_i items2 len2 rest2 hI
              rw [Except.ok.injEq, Prod.mk.injEq, Prod.mk.injEq] at h
              obtain ⟨h1, h2, h3⟩ := h
              subst h1; subst h2; subst h3
              obtain ⟨hA, hAn⟩ := ihN _ _ _ hN
              obtain ⟨hB, hBl, hBn⟩ := ihI _ _ _ _ hI
              refine ⟨?_, ?_, ?_⟩
              · rw [List.map_cons, List.flatten_cons, List.append_assoc, hB, hA]
              · rw [List.map_cons, List.flatten_cons, List.length_append,
                    Item.raw_length_eq, hBl]
              · intro n hn
                rw [show nodesList (item :: items2) =
                      item.nodes ++ nodesList items2 from rfl] at hn
                rcases List.mem_append.mp hn with hn | hn
                · exact hAn n hn
                · have := hBn n hn
                  have hsuf : rest1 <:+ c :: w := ⟨item.raw, hA⟩
                  exact ⟨this.1.trans hsuf.isInfix, this.2⟩
    · -- decode_entries
      intro w pairs len rest h
      match w with
      | [] => exact absurd h (by simp [decode_entries])
      | c :: w =>
        rw [decode_entries] at h
        by_cases hc : c = TRAILER
        · rw [if_pos hc] at h
          rw [Except.ok.injEq, Prod.mk.injEq, Prod.mk.injEq] at h
          obtain ⟨h1, h2, h3⟩ := h
          subst h1; subst h2; subst h3
          refine ⟨by simp [hc], by simp, ?_⟩
          intro n hn
          obtain ⟨p, hp, _⟩ := hn
          exact absurd hp (List.not_mem_nil p)
        · rw [if_neg hc] at h
          split at h
          · exact absurd h (by simp)
          · -- key decoded as a byte string
            rename_i kraw kpay rest1 hN
            split at h
            · -- isValidUtf8 positive: nested matches
              split at h
              · exact absurd h (by simp)
              · rename_i value rest2 hV
                split at h
                · exact absurd h (by simp)
                · rename_i pairs2 len2 rest3 hE
                  rw [Except.ok.injEq, Prod.mk.injEq, Prod.mk.injEq] at h
                  obtain ⟨h1, h2, h3⟩ := h
                  subst h1; subst h2; subst h3
                  obtain ⟨hA, _⟩ := ihN _ _ _ hN
                  obtain ⟨hV1, hVn⟩ := ihN _ _ _ hV
                  obtain ⟨hB, hBl, hBn⟩ := ihE _ _ _ _ hE
                  have hAraw : kraw ++ rest1 = c :: w := hA
                  refine ⟨?_, ?_, ?_⟩
                  · rw [List.map_cons, List.flatten_cons]
                    rw [show ((kraw, kpay), value).1.1 ++ ((kraw, kpay), value).2.raw =
                          kraw ++ value.raw from rfl]
                    rw [List.append_assoc, List.append_assoc, hB, hV1, hAraw]
                  · simp [Item.raw_length_eq, hBl, Nat.add_assoc]
                  · intro n hn
                    obtain ⟨p, hp, hnp⟩ := hn
                    rcases List.mem_cons.mp hp with hp | hp
                    · subst hp
                      have := hVn n hnp
                      have hsuf : rest1 <:+ c :: w := ⟨kraw, hAraw⟩
                      exact ⟨this.1.trans hsuf.isInfix, this.2⟩
                    · have := hBn n ⟨p, hp, hnp⟩
                      have hsuf2 : rest2 <:+ rest1 := ⟨value.raw, hV1⟩
                      have hsuf : rest1 <:+ c :: w := ⟨kraw, hAraw⟩
                      exact ⟨(this.1.trans hsuf2.isInfix).trans hsuf.isInfix, this.2⟩
            · -- isValidUtf8 negative
              exact absurd h (by simp)
          · -- key not a byte string
            exact absurd h (by simp)



/-! ## C4: raw preservation and framing -/

/-- C4 counterexample: decoding `d1:ai1e1:ai2ee` succeeds and yields a
dictionary whose raw token is the whole 14-byte input, but whose (single)
entry accounts for a `1:a` key token (3 bytes) and an `i2e` value token
(3 bytes): 2 framing bytes plus the interleaved key tokens and children
raw slices make 8 ≠ 14 bytes, because the overwritten first occurrence of
the duplicate key is absent from the map. -/
theorem C4_counterexample :
    decode_next 20 dupKeyInput =
      .ok (.dict dupKeyInput [([97], .number [105, 50, 101] [50])], []) ∧
    (Item.dict dupKeyInput [([97], .number [105, 50, 101] [50])]).raw_length ≠
      2 + ((3 + (Item.number [105, 50, 101] [50]).raw_length) + 0) :=
  ⟨rfl, by decide⟩

/-- C4 (amended): for every successfully parsed input, the decoded root's
raw slice plus the remaining input reassemble the input exactly, every
node's raw token occurs contiguously in the input, and the framing
invariant holds in the following form: for list nodes the concatenation of
the children's raw slices plus 2 framing bytes is the list's raw slice;
for dictionary nodes the same holds for the parse-order sequence of key
and value tokens — of which the entry map is the insertion fold — but not
in general for the resulting map itself, which drops superseded duplicate
keys (see the counterexample). -/
theorem C4_raw_preservation (fuel : Nat) (input : List Nat) (it : Item)
    (rest : List Nat) (h : decode_next fuel input = .ok (it, rest)) :
    it.raw ++ rest = input ∧ ∀ n ∈ it.nodes, n.raw <:+: input ∧ FrameOk n :=
  (decode_spec fuel).1 input it rest h

/-- C4 witness: the theorem applied to the concrete input `li5ee`. -/
theorem C4_raw_preservation_witness :
    decode_next 6 [108, 105, 53, 101, 101] =
      .ok (.list [108, 105, 53, 101, 101] [.number [105, 53, 101] [53]], []) ∧
    ((Item.list [108, 105, 53, 101, 101] [.number [105, 53, 101] [53]]).raw ++ [] =
        [108, 105, 53, 101, 101] ∧
      ∀ n ∈ (Item.list [108, 105, 53, 101, 101] [.number [105, 53, 101] [53]]).nodes,
        n.raw <:+: [108, 105, 53, 101, 101] ∧ FrameOk n) :=
  ⟨rfl, C4_raw_preservation 6 _ _ _ rfl⟩

/-! ## C7: duplicate dictionary keys -/

/-- C7 counterexample: the claim predicts that decoding `d1:ai1e1:ai2ee`
binds key `a` to the *first* occurrence `i1e` (digits `1` = byte 49); in
fact the decoder's `HashMap::insert` keeps the second occurrence, so the
bound number's digits are not `[49]`. -/
theorem C7_counterexample :
    ¬ dictNumberPayload (decode_next 20 dupKeyInput) [97] = some [49] := by
  decide

/-- C7 (amended): when the same key occurs more than once, the decoded
dictionary preserves the *last* occurrence: `dictInsert` (the model of
`HashMap::insert` used by `decode_dict`) replaces the value of an existing
key and leaves other keys untouched, and on `d1:ai1e1:ai2ee` the decoder
binds `a` to the second occurrence `i2e`. -/
theorem C7_last_occurrence_wins :
    (∀ entries k v, dictGet (dictInsert entries k v) k = some v) ∧
    (∀ entries k v k₂, k₂ ≠ k →
      dictGet (dictInsert entries k v) k₂ = dictGet entries k₂) ∧
    dictNumberPayload (decode_next 20 dupKeyInput) [97] = some [50] := by
  refine ⟨?_, ?_, by decide⟩
  · intro entries k v
    induction entries with
    | nil => simp [dictInsert, dictGet]
    | cons e rest ih =>
      obtain ⟨k₀, v₀⟩ := e
      by_cases h : k₀ = k
      · simp [dictInsert, h, dictGet]
      · simp [dictInsert, h, dictGet, ih]
  · intro entries k v k₂ hne
    have hkk : k ≠ k₂ := fun h => hne h.symm
    induction entries with
    | nil => simp [dictInsert, dictGet, hkk]
    | cons e rest ih =>
      obtain ⟨k₀, v₀⟩ := e
      by_cases h : k₀ = k
      · subst h
        simp [dictInsert, dictGet, hkk]
      · simp only [dictInsert, if_neg h, dictGet]
        by_cases h2 : k₀ = k₂
        · simp [h2]
        · simp [h2, ih]

/-! ## C8: integer token edges -/

/-- C8 counterexample: the claim says decoding `i-0e` is an error; the
decoder performs no validation of the digits and succeeds. -/
theorem C8_counterexample : ¬ ∃ e, decode_next 9 [105, 45, 48, 101] = .error e := by
  intro ⟨e, h⟩
  rw [show decode_next 9 [105, 45, 48, 101] =
        .ok (.number [105, 45, 48, 101] [45, 48], []) from rfl] at h
  exact Except.noConfusion h

/-- C8 (amended): the integer token `i...e` is taken without any
validation: `i52e` yields digits `52`, `i-42e` yields `-42`, `i52ebar`
yields `52` with `bar` remaining, `i0e` yields `0`, and `i-0e` also
decodes successfully, to digits `-0` (no leading-zero or `-0` rejection
exists in the code). -/
theorem C8_integer_edges :
    decode_next 9 [105, 53, 50, 101] = .ok (.number [105, 53, 50, 101] [53, 50], []) ∧
    decode_next 9 [105, 45, 52, 50, 101] =
      .ok (.number [105, 45, 52, 50, 101] [45, 52, 50], []) ∧
    decode_next 9 [105, 53, 50, 101, 98, 97, 114] =
      .ok (.number [105, 53, 50, 101] [53, 50], [98, 97, 114]) ∧
    decode_next 9 [105, 48, 101] = .ok (.number [105, 48, 101] [48], []) ∧
    decode_next 9 [105, 45, 48, 101] = .ok (.number [105, 45, 48, 101] [45, 48], []) :=
  ⟨rfl, rfl, rfl, rfl, rfl⟩

/-! ## C3: piece and block geometry -/

theorem sum_range_if_last (n a b : Nat) (h : 0 < n) :
    ((List.range n).map (fun i => if i = n - 1 then a else b)).sum = (n - 1) * b + a := by
  cases n with
  | zero => omega
  | succ m =>
    rw [List.range_succ, List.map_append, List.sum_append]
    have h1 : (List.range m).map (fun i => if i = m + 1 - 1 then a else b) =
        (List.range m).map (fun _ => b) := by
      apply List.map_congr_left
      intro i hi
      rw [List.mem_range] at hi
      rw [if_neg (by omega)]
    rw [h1, List.map_const', List.length_range, List.sum_replicate, smul_eq_mul]
    simp

theorem last_size_eq (L P n : Nat) (hP : 0 < P) (hn : 0 < n)
    (hlo : L ≤ n * P) (hhi : (n - 1) * P < L) :
    (if L % P = 0 then P else L % P) = L - (n - 1) * P := by
  have hsplit : (n - 1) * P + P = n * P := by
    cases n with
    | zero => omega
    | succ m => simp [Nat.succ_sub_one, Nat.succ_mul]
  set r := L - (n - 1) * P with hr
  have hrpos : 0 < r := by omega
  have hrle : r ≤ P := by omega
  have hL : L = (n - 1) * P + r := by omega
  by_cases hcase : r = P
  · have hLn : L = n * P := by omega
    rw [hLn, Nat.mul_mod_left, if_pos rfl]
    omega
  · have hrlt : r < P := by omega
    have hmod : L % P = r := by
      conv_lhs => rw [hL, mul_comm (n - 1) P]
      rw [Nat.mul_add_mod]
      exact Nat.mod_eq_of_lt hrlt
    rw [hmod, if_neg (by omega)]

theorem ceil_div_facts (L B : Nat) (hB : 0 < B) (hL : 0 < L) :
    0 < (L + B - 1) / B ∧ ((L + B - 1) / B - 1) * B < L ∧ L ≤ ((L + B - 1) / B) * B := by
  have h1 : L + B - 1 = (L - 1) + B := by omega
  rw [h1, Nat.add_div_right _ hB]
  have h2 := Nat.div_add_mod (L - 1) B
  have h3 : (L - 1) % B < B := Nat.mod_lt _ hB
  refine ⟨Nat.succ_pos _, ?_, ?_⟩
  · rw [Nat.add_sub_cancel, mul_comm]
    omega
  · rw [add_mul, one_mul, mul_comm]
    omega

/-- C3: for every torrent with a strictly positive piece length and
`pieces_count * piece_length` within `[total_len, total_len + piece_length)`,
`pieces_info` yields `pieces_count` entries, piece `i` has offset
`i * piece_length` and length `piece_length` except the last (whose length
is `total_len - (count-1) * piece_length`), the piece lengths sum to
`total_len`; and `blocks_info i B` (for `B > 0` and valid `i`) yields
`⌈piece_size/B⌉` blocks, block `j` at offset `j * B` with length `B`
except the last, summing to the piece size. -/
theorem C3_geometry (t : Torrent) (hP : 0 < t.piece_length)
    (hlo : t.total_len ≤ t.pieces_count * t.piece_length)
    (hhi : t.pieces_count * t.piece_length < t.total_len + t.piece_length) :
    (t.pieces_info).length = t.pieces_count ∧
    (∀ i, i < t.pieces_count →
      (t.pieces_info)[i]? = some
        { index := i
          offset := i * t.piece_length
          length := if i < t.pieces_count - 1 then t.piece_length
            else t.total_len - (t.pieces_count - 1) * t.piece_length }) ∧
    ((t.pieces_info).map PieceInfo.length).sum = t.total_len ∧
    (∀ i pi B, 0 < B → (t.pieces_info)[i]? = some pi →
      ∃ blocks, t.blocks_info i B = some blocks ∧
        blocks.length = (pi.length + B - 1) / B ∧
        (∀ j, j < (pi.length + B - 1) / B →
          blocks[j]? = some
            { offset := j * B
              length := if j < (pi.length + B - 1) / B - 1 then B
                else pi.length - ((pi.length + B - 1) / B - 1) * B }) ∧
        (blocks.map BlockInfo.length).sum = pi.length) := by
  have hsplit : ∀ n : Nat, 0 < n → (n - 1) * t.piece_length + t.piece_length =
      n * t.piece_length := by
    intro n hn
    cases n with
    | zero => omega
    | succ m => simp [Nat.succ_sub_one, Nat.succ_mul]
  have hlast : 0 < t.pieces_count →
      t.last_piece_size = t.total_len - (t.pieces_count - 1) * t.piece_length := by
    intro hc
    have hhi2 : (t.pieces_count - 1) * t.piece_length < t.total_len := by
      have := hsplit t.pieces_count hc
      omega
    exact last_size_eq _ _ _ hP hc hlo hhi2
  refine ⟨by simp [Torrent.pieces_info], ?_, ?_, ?_⟩
  · intro i hi
    rw [Torrent.pieces_info, List.getElem?_map, List.getElem?_range hi]
    simp only [Option.map_some']
    by_cases hl : i = t.pieces_count - 1
    · rw [if_pos hl, if_neg (by omega), hlast (by omega)]
    · rw [if_neg hl, if_pos (by omega)]
  · by_cases hc : 0 < t.pieces_count
    · rw [Torrent.pieces_info, List.map_map]
      rw [show (PieceInfo.length ∘ fun i =>
            ({ index := i
               offset := i * t.piece_length
               length := if i = t.pieces_count - 1 then t.last_piece_size
                 else t.piece_length } : PieceInfo)) =
          fun i => if i = t.pieces_count - 1 then t.last_piece_size
            else t.piece_length from rfl]
      rw [sum_range_if_last _ _ _ hc, hlast hc]
      have := hsplit t.pieces_count hc
      omega
    · have hz : t.pieces_count = 0 := by omega
      rw [hz] at hlo
      rw [Torrent.pieces_info, hz]
      simp only [List.range_zero, List.map_nil, List.sum_nil]
      omega
  · intro i pi B hB hpi
    rw [Torrent.blocks_info, hpi]
    refine ⟨_, rfl, by simp, ?_, ?_⟩
    · intro j hj
      rw [List.getElem?_map, List.getElem?_range hj]
      simp only [Option.map_some']
      by_cases hpl : 0 < pi.length
      · obtain ⟨hbc0, hlow, hhigh⟩ := ceil_div_facts pi.length B hB hpl
        have hlastb : (if pi.length % B = 0 then B else pi.length % B) =
            pi.length - ((pi.length + B - 1) / B - 1) * B :=
          last_size_eq _ _ _ hB hbc0 hhigh hlow
        by_cases hl : j = (pi.length + B - 1) / B - 1
        · rw [if_pos hl, hlastb,
              if_neg (show ¬ j < (pi.length + B - 1) / B - 1 by omega)]
        · rw [if_neg hl, if_pos (by omega)]
      · have hz : pi.length = 0 := by omega
        rw [hz] at hj
        have : (0 + B - 1) / B = 0 := Nat.div_eq_of_lt (by omega)
        omega
    · by_cases hpl : 0 < pi.length
      · obtain ⟨hbc0, hlow, hhigh⟩ := ceil_div_facts pi.length B hB hpl
        have hlastb : (if pi.length % B = 0 then B else pi.length % B) =
            pi.length - ((pi.length + B - 1) / B - 1) * B :=
          last_size_eq _ _ _ hB hbc0 hhigh hlow
        rw [List.map_map]
        rw [show (BlockInfo.length ∘ fun i =>
              ({ offset := i * B
                 length := if i = (pi.length + B - 1) / B - 1 then
                     (if pi.length % B = 0 then B else pi.length % B)
                   else B } : BlockInfo)) =
            fun i => if i = (pi.length + B - 1) / B - 1 then
                (if pi.length % B = 0 then B else pi.length % B)
              else B from rfl]
        rw [sum_range_if_last _ _ _ hbc0, hlastb]
        omega
      · have hz : pi.length = 0 := by omega
        rw [hz]
        have h0 : (0 + B - 1) / B = 0 := Nat.div_eq_of_lt (by omega)
        rw [h0]
        simp

/-- C3 witness: the geometry theorem applied to a 300-byte, 3-piece,
piece-length-100 torrent. -/
theorem C3_geometry_witness :
    (0 < sampleTorrent.piece_length ∧
     sampleTorrent.total_len ≤ sampleTorrent.pieces_count * sampleTorrent.piece_length ∧
     sampleTorrent.pieces_count * sampleTorrent.piece_length <
       sampleTorrent.total_len + sampleTorrent.piece_length) ∧
    ((sampleTorrent.pieces_info).length = sampleTorrent.pieces_count ∧
    (∀ i, i < sampleTorrent.pieces_count →
      (sampleTorrent.pieces_info)[i]? = some
        { index := i
          offset := i * sampleTorrent.piece_length
          length := if i < sampleTorrent.pieces_count - 1 then sampleTorrent.piece_length
            else sampleTorrent.total_len -
              (sampleTorrent.pieces_count - 1) * sampleTorrent.piece_length }) ∧
    ((sampleTorrent.pieces_info).map PieceInfo.length).sum = sampleTorrent.total_len ∧
    (∀ i pi B, 0 < B → (sampleTorrent.pieces_info)[i]? = some pi →
      ∃ blocks, sampleTorrent.blocks_info i B = some blocks ∧
        blocks.length = (pi.length + B - 1) / B ∧
        (∀ j, j < (pi.length + B - 1) / B →
          blocks[j]? = some
            { offset := j * B
              length := if j < (pi.length + B - 1) / B - 1 then B
                else pi.length - ((pi.length + B - 1) / B - 1) * B }) ∧
        (blocks.map BlockInfo.length).sum = pi.length)) :=
  ⟨⟨by decide, by decide, by decide⟩,
   C3_geometry sampleTorrent (by decide) (by decide) (by decide)⟩

/-! ## C9: handshake round-trip and capability bytes -/

/-- C9: parsing the 68-byte serialization of a valid handshake (20-byte
info hash and peer id) yields the handshake again, the capability field of
the serialization is exactly the extension's 8 bytes, a magnet-sourced
handshake has byte `0x10` at 0-based offset 5 of the capability field with
all other capability bytes zero, and a non-magnet handshake has all eight
capability bytes zero. -/
theorem C9_handshake_roundtrip (h : Handshake)
    (hi : h.info_hash.length = 20) (hp : h.peer_id.length = 20) :
    Handshake.from_bytes h.to_bytes = h ∧
    ((h.to_bytes).drop 20).take 8 = h.extension.to_bytes ∧
    (h.extension = .magnetLink →
      ((h.to_bytes).drop 20).take 8 = [0, 0, 0, 0, 0, 16, 0, 0]) ∧
    (h.extension = .none → ((h.to_bytes).drop 20).take 8 = List.replicate 8 0) := by
  obtain ⟨info, pid, ext⟩ := h
  simp only at hi hp
  simp only [Handshake.to_bytes]
  have hA : (19 :: protocolBytes).length = 20 := rfl
  have hel : ext.to_bytes.length = 8 := by cases ext <;> rfl
  have h28 : ((19 :: protocolBytes) ++ ext.to_bytes).length = 28 := by
    rw [List.length_append, hA, hel]
  have h48 : (((19 :: protocolBytes) ++ ext.to_bytes) ++ info).length = 48 := by
    rw [List.length_append, h28, hi]
  have e1 : (19 :: protocolBytes) ++ ext.to_bytes ++ info ++ pid =
      (19 :: protocolBytes) ++ (ext.to_bytes ++ (info ++ pid)) := by
    simp [List.append_assoc]
  have hcap : (((19 :: protocolBytes) ++ ext.to_bytes ++ info ++ pid).drop 20).take 8 =
      ext.to_bytes := by
    rw [e1, List.drop_left' hA, List.take_left' hel]
  have hinfo : (((19 :: protocolBytes) ++ ext.to_bytes ++ info ++ pid).drop 28).take 20 =
      info := by
    rw [List.append_assoc ((19 :: protocolBytes) ++ ext.to_bytes) info pid,
        List.drop_left' h28, List.take_left' hi]
  have hpid : (((19 :: protocolBytes) ++ ext.to_bytes ++ info ++ pid).drop 48).take 20 =
      pid := by
    rw [List.drop_left' h48, List.take_of_length_le (le_of_eq hp)]
  refine ⟨?_, hcap, ?_, ?_⟩
  · simp only [Handshake.from_bytes, Handshake.mk.injEq]
    refine ⟨hinfo, hpid, ?_⟩
    rw [hcap]
    cases ext <;> rfl
  · intro hx
    rw [hcap, hx]
    rfl
  · intro hx
    rw [hcap, hx]
    rfl

/-- C9 witness: the round-trip theorem applied to a concrete magnet-link
handshake. -/
theorem C9_handshake_roundtrip_witness :
    (sampleHandshake.info_hash.length = 20 ∧ sampleHandshake.peer_id.length = 20) ∧
    (Handshake.from_bytes sampleHandshake.to_bytes = sampleHandshake ∧
     ((sampleHandshake.to_bytes).drop 20).take 8 = sampleHandshake.extension.to_bytes ∧
     (sampleHandshake.extension = .magnetLink →
       ((sampleHandshake.to_bytes).drop 20).take 8 = [0, 0, 0, 0, 0, 16, 0, 0]) ∧
     (sampleHandshake.extension = .none →
       ((sampleHandshake.to_bytes).drop 20).take 8 = List.replicate 8 0)) :=
  ⟨⟨by decide, by decide⟩,
   C9_handshake_roundtrip sampleHandshake (by decide) (by decide)⟩

/-! ## C6: frame reading and KeepAlive -/

/-- C6 counterexample: the stream holds a KeepAlive frame `[0,0,0,0]`
followed by an Unchoke frame `[0,0,0,1,1]`.  The claim predicts the reader
skips the KeepAlive and yields the Unchoke having consumed both frames; in
fact `read_from` consumes the Unchoke frame's first byte as a message id
and returns `Choke` — a message never sent — leaving `[0,0,1,1]`. -/
theorem C6_counterexample :
    Message.read_from [0, 0, 0, 0, 0, 0, 0, 1, 1] = .ok (.choke, [0, 0, 1, 1]) ∧
    Message.read_from [0, 0, 0, 0, 0, 0, 0, 1, 1] ≠ .ok (.unchoke, []) :=
  ⟨rfl, fun hcontra => by
    rw [show Message.read_from [0, 0, 0, 0, 0, 0, 0, 1, 1] =
          .ok (.choke, [0, 0, 1, 1]) from rfl] at hcontra
    exact absurd hcontra (by simp)⟩

/-- C6 (amended): `read_from` always reads a 5-byte mark first, so a
zero-length KeepAlive frame is never recognised: the byte following a zero
length prefix (the first byte of the next frame) is consumed as a message
id — a zero byte parses as `Choke`, and a payload-bearing id panics on the
`4 + 0`-byte buffer.  For ids 0-2 the reader consumes exactly 5 bytes
regardless of the declared length; for ids 5, 6, 7, 20 with declared
length `N ≥ 1` it consumes exactly `4 + N` bytes. -/
theorem C6_read_from_consumption :
    (∀ b0 b1 b2 b3 id rest, id ≤ 2 →
      Message.read_from (b0 :: b1 :: b2 :: b3 :: id :: rest) =
        .ok ((if id = 0 then .choke else if id = 1 then .unchoke else .interested),
             rest)) ∧
    (∀ b0 b1 b2 b3 id rest m, (id = 5 ∨ id = 6 ∨ id = 7 ∨ id = 20) →
      1 ≤ be32 b0 b1 b2 b3 → be32 b0 b1 b2 b3 - 1 ≤ rest.length →
      Message.from_bytes ([b0, b1, b2, b3, id] ++ rest.take (be32 b0 b1 b2 b3 - 1)) =
        .ok m →
      Message.read_from (b0 :: b1 :: b2 :: b3 :: id :: rest) =
        .ok (m, rest.drop (be32 b0 b1 b2 b3 - 1))) ∧
    (∀ s, Message.read_from (0 :: 0 :: 0 :: 0 :: 0 :: s) = .ok (.choke, s)) ∧
    (∀ id s, (id = 5 ∨ id = 6 ∨ id = 7 ∨ id = 20) →
      ∃ e, Message.read_from (0 :: 0 :: 0 :: 0 :: id :: s) = .error e) := by
  refine ⟨?_, ?_, ?_, ?_⟩
  · intro b0 b1 b2 b3 id rest hid
    rw [Message.read_from]
    rw [if_pos hid]
    interval_cases id
    · simp [Message.from_bytes]
    · simp [Message.from_bytes]
    · simp [Message.from_bytes]
  · intro b0 b1 b2 b3 id rest m hid hlen hrest hm
    rw [Message.read_from]
    rw [if_neg (by omega), if_pos hid, if_neg (by omega),
        if_neg (by omega), hm]
  · intro s
    rw [Message.read_from]
    rfl
  · intro id s hid
    refine ⟨"panic: copy_from_slice length mismatch", ?_⟩
    rw [Message.read_from]
    rw [if_neg (by omega), if_pos hid]
    rfl

/-- C6 witness: the consumption theorem applied to a concrete Unchoke
frame (with trailing bytes left unread) and to a concrete Piece frame
whose declared 12-byte payload is consumed exactly. -/
theorem C6_read_from_consumption_witness :
    Message.read_from [0, 0, 0, 1, 1, 9, 9] = .ok (.unchoke, [9, 9]) ∧
    Message.read_from [0, 0, 0, 12, 7, 0, 0, 0, 0, 0, 0, 0, 0, 1, 2, 3, 8, 8] =
      .ok (.piece 0 0 [1, 2, 3], [8, 8]) :=
  ⟨C6_read_from_consumption.1 0 0 0 1 1 [9, 9] (by decide),
   C6_read_from_consumption.2.1 0 0 0 12 7 [0, 0, 0, 0, 0, 0, 0, 0, 1, 2, 3, 8, 8]
     (.piece 0 0 [1, 2, 3]) (by decide) (by decide) (by decide) rfl⟩

/-! ## C1: no hash verification in piece_download -/

set_option maxRecDepth 40000 in
/-- C1 counterexample: the session runs to completion (BitField, Unchoke,
one Piece covering the whole 3-byte piece) and returns the delivered bytes
`[1,2,3]`, although their SHA-1 differs from `pieces[0]` (20 zero bytes);
no `PieceHashMismatch` failure occurs — `piece_download` has no hash check
at all. -/
theorem C1_counterexample :
    piece_download 16384 mismatchTorrent 0 mismatchStream =
      .ok ([1, 2, 3], [.interested, .request 0 0 3]) ∧
    hash [1, 2, 3] ≠ mismatchTorrent.info.pieces.getD 0 [] :=
  ⟨rfl, by decide⟩

theorem pieces_info_digests (t : Torrent) (digests : List (List Nat))
    (hlen : digests.length = t.info.pieces.length) :
    Torrent.pieces_info { t with info := { t.info with pieces := digests } } =
      t.pieces_info := by
  simp [Torrent.pieces_info, Torrent.pieces_count, Torrent.piece_length,
        Torrent.last_piece_size, Torrent.total_len, hlen]

theorem blocks_info_digests (t : Torrent) (digests : List (List Nat))
    (hlen : digests.length = t.info.pieces.length) (i b : Nat) :
    Torrent.blocks_info { t with info := { t.info with pieces := digests } } i b =
      t.blocks_info i b := by
  rw [Torrent.blocks_info, Torrent.blocks_info, pieces_info_digests t digests hlen]

theorem pd_step_digests (block_size : Nat) (t : Torrent) (index : Nat)
    (digests : List (List Nat)) (hlen : digests.length = t.info.pieces.length)
    (st : PDState) (msg : Message) :
    pd_step block_size { t with info := { t.info with pieces := digests } } index st msg =
      pd_step block_size t index st msg := by
  obtain ⟨sst, piece, col⟩ := st
  cases sst <;> cases msg <;>
    simp [pd_step, blocks_info_digests t digests hlen]

theorem pd_loop_digests (block_size : Nat) (t : Torrent) (index : Nat)
    (digests : List (List Nat)) (hlen : digests.length = t.info.pieces.length) :
    ∀ fuel stream st sent,
      pd_loop block_size { t with info := { t.info with pieces := digests } }
          index fuel stream st sent =
        pd_loop block_size t index fuel stream st sent := by
  intro fuel
  induction fuel with
  | zero => intro stream st sent; rfl
  | succ f ih =>
    intro stream st sent
    rw [pd_loop, pd_loop]
    by_cases hcomp : collectedSum st.collected_blocks = st.piece.length
    · rw [if_pos hcomp, if_pos hcomp]
    · rw [if_neg hcomp, if_neg hcomp]
      cases Message.read_from stream with
      | error e => rfl
      | ok x =>
        obtain ⟨msg, stream2⟩ := x
        dsimp only
        rw [pd_step_digests block_size t index digests hlen]
        cases pd_step block_size t index st msg with
        | error e => rfl
        | ok y =>
          obtain ⟨st2, out⟩ := y
          dsimp only
          exact ih stream2 st2 (sent ++ out)

/-- C1 (amended): a piece download that runs to completion returns the
assembled buffer as delivered by the peer, with no SHA-1 verification: the
result of `piece_download` is entirely independent of the torrent's piece
digests (replacing them by any other list of the same length changes
nothing), and no `PieceHashMismatch` error path exists. -/
theorem C1_no_hash_verification (block_size : Nat) (t : Torrent) (index : Nat)
    (stream : List Nat) (digests : List (List Nat))
    (hlen : digests.length = t.info.pieces.length) :
    piece_download block_size { t with info := { t.info with pieces := digests } }
        index stream =
      piece_download block_size t index stream := by
  rw [piece_download, piece_download, pieces_info_digests t digests hlen]
  cases (t.pieces_info)[index]? with
  | none => rfl
  | some pi => exact pd_loop_digests block_size t index digests hlen _ _ _ _

/-- C1 witness: replacing the digest of the mismatch torrent by any other
digest leaves the download result unchanged. -/
theorem C1_no_hash_verification_witness :
    ([List.replicate 20 7] : List (List Nat)).length =
      mismatchTorrent.info.pieces.length ∧
    piece_download 16384
        { mismatchTorrent with info :=
          { mismatchTorrent.info with pieces := [List.replicate 20 7] } }
        0 mismatchStream =
      piece_download 16384 mismatchTorrent 0 mismatchStream :=
  ⟨by decide,
   C1_no_hash_verification 16384 mismatchTorrent 0 mismatchStream
     [List.replicate 20 7] (by decide)⟩

/-! ## C2: the piece-download state machine -/

theorem build_requests_ok (index : Nat) (blocks : List BlockInfo)
    (h : ∀ b ∈ blocks, b.offset < 4294967296 ∧ b.length < 4294967296) :
    build_requests index blocks =
      .ok (blocks.map fun b => Message.request index b.offset b.length) := by
  induction blocks with
  | nil => rfl
  | cons b rest ih =>
    obtain ⟨h1, h2⟩ := h b (List.mem_cons_self _ _)
    rw [build_requests, if_pos h1, if_pos h2,
        ih (fun x hx => h x (List.mem_cons_of_mem _ hx))]
    rfl

/-- C2: the session is the state machine of the claim.  On BitField in the
initial state it sends exactly one Interested and moves on; on Unchoke it
sends one Request per block of the target piece in ascending block-offset
order and moves on; a Piece message for the target index is copied into
the buffer at its offset (the written bytes are the block's) and its
`(offset, length)` key recorded; any message a state does not expect makes
the step fail with an error, never a silent skip; and `piece_download`
starts the loop in the `WaitingForBitField` state. -/
theorem C2_state_machine (block_size : Nat) (t : Torrent) (index : Nat)
    (hbs : 0 < block_size) :
    (∀ piece col payload,
      pd_step block_size t index ⟨.waitingForBitField, piece, col⟩
          (.bitField payload) =
        .ok (⟨.waitingForUnchoke, piece, col⟩, [.interested])) ∧
    (∀ piece col blocks, t.blocks_info index block_size = some blocks →
      (∀ b ∈ blocks, b.offset < 4294967296 ∧ b.length < 4294967296) →
      pd_step block_size t index ⟨.waitingForUnchoke, piece, col⟩ .unchoke =
        .ok (⟨.waitingForPieceBlock, piece, col⟩,
             blocks.map fun b => Message.request index b.offset b.length) ∧
      List.Pairwise (fun b1 b2 : BlockInfo => b1.offset < b2.offset) blocks) ∧
    (∀ piece col begin block, begin + block.length ≤ piece.length →
      pd_step block_size t index ⟨.waitingForPieceBlock, piece, col⟩
          (.piece index begin block) =
        .ok (⟨.waitingForPieceBlock, setRange piece begin block,
              hsInsert (begin, block.length) col⟩, []) ∧
      (∀ j, j < block.length →
        (setRange piece begin block)[begin + j]? = block[j]?)) ∧
    (∀ st msg, ¬ expectedMsg index st.state msg →
      ∃ e, pd_step block_size t index st msg = .error e) ∧
    (∀ pi stream, (t.pieces_info)[index]? = some pi →
      piece_download block_size t index stream =
        pd_loop block_size t index (stream.length + 1) stream
          ⟨.waitingForBitField, List.replicate pi.length 0, []⟩ []) := by
  refine ⟨?_, ?_, ?_, ?_, ?_⟩
  · intro piece col payload
    rfl
  · intro piece col blocks hb hsmall
    constructor
    · simp only [pd_step, hb, build_requests_ok index blocks hsmall]
    · have hb2 := hb
      rw [Torrent.blocks_info] at hb2
      cases hpi : (t.pieces_info)[index]? with
      | none => rw [hpi] at hb2; exact absurd hb2 (by simp)
      | some pi =>
        rw [hpi] at hb2
        simp only [Option.some.injEq] at hb2
        rw [← hb2, List.pairwise_map]
        refine List.Pairwise.imp ?_ (List.pairwise_lt_range _)
        intro i j hij
        simpa using (Nat.mul_lt_mul_right hbs).mpr hij
  · intro piece col begin block hfit
    constructor
    · simp [pd_step, hfit]
    · intro j hj
      have htake : (piece.take begin).length = begin := by
        rw [List.length_take]
        omega
      rw [setRange, List.getElem?_append,
          if_pos (show begin + j < (piece.take begin ++ block).length by
            rw [List.length_append, htake]; omega),
          List.getElem?_append,
          if_neg (show ¬ begin + j < (piece.take begin).length by
            rw [htake]; omega),
          htake, Nat.add_sub_cancel_left]
  · intro st msg hne
    obtain ⟨sst, piece, col⟩ := st
    cases sst <;> cases msg <;>
      first
      | exact absurd trivial hne
      | exact ⟨_, rfl⟩
      | (simp only [expectedMsg] at hne
         exact ⟨_, by simp only [pd_step]; rw [if_neg hne]⟩)
  · intro pi stream hpi
    simp only [piece_download, hpi]

/-- C2 witness: the state-machine theorem applied to the concrete 3-byte
torrent with the default 16 KiB block size. -/
theorem C2_state_machine_witness :
    pd_step 16384 mismatchTorrent 0 ⟨.waitingForBitField, [0, 0, 0], []⟩
        (.bitField []) =
      .ok (⟨.waitingForUnchoke, [0, 0, 0], []⟩, [.interested]) ∧
    (pd_step 16384 mismatchTorrent 0 ⟨.waitingForUnchoke, [0, 0, 0], []⟩ .unchoke =
      .ok (⟨.waitingForPieceBlock, [0, 0, 0], []⟩,
           ([⟨0, 3⟩] : List BlockInfo).map fun b =>
             Message.request 0 b.offset b.length) ∧
     List.Pairwise (fun b1 b2 : BlockInfo => b1.offset < b2.offset)
       ([⟨0, 3⟩] : List BlockInfo)) ∧
    (pd_step 16384 mismatchTorrent 0 ⟨.waitingForPieceBlock, [0, 0, 0], []⟩
        (.piece 0 0 [1, 2, 3]) =
      .ok (⟨.waitingForPieceBlock, setRange [0, 0, 0] 0 [1, 2, 3],
            hsInsert (0, 3) []⟩, []) ∧
     (∀ j, j < ([1, 2, 3] : List Nat).length →
       (setRange [0, 0, 0] 0 [1, 2, 3])[0 + j]? = [1, 2, 3][j]?)) ∧
    (∃ e, pd_step 16384 mismatchTorrent 0 ⟨.waitingForBitField, [0, 0, 0], []⟩
        .unchoke = .error e) ∧
    piece_download 16384 mismatchTorrent 0 [] =
      pd_loop 16384 mismatchTorrent 0 1 []
        ⟨.waitingForBitField, List.replicate 3 0, []⟩ [] :=
  have T := C2_state_machine 16384 mismatchTorrent 0 (by decide)
  ⟨T.1 [0, 0, 0] [] [],
   T.2.1 [0, 0, 0] [] [⟨0, 3⟩] rfl (by decide),
   T.2.2.1 [0, 0, 0] [] 0 [1, 2, 3] (by decide),
   T.2.2.2.1 ⟨.waitingForBitField, [0, 0, 0], []⟩ .unchoke (fun h => h),
   T.2.2.2.2 ⟨0, 0, 3⟩ [] rfl⟩

/-! ## C10: block bookkeeping and the completion condition -/

/-- C10: delivered blocks are recorded as a set of `(offset, length)`
keys: a Piece message whose key is already recorded rewrites the buffer
but leaves the collected set (hence the completion sum) unchanged; the
loop returns the buffer exactly when the recorded lengths sum to the piece
size, and this is checked before each read — with the sum complete the
loop returns even on an empty stream, with it incomplete an empty stream
is an error, and every successful return exhibits a state whose recorded
lengths sum to the returned buffer's size. -/
theorem C10_completion (block_size : Nat) (t : Torrent) (index : Nat) :
    (∀ piece col begin block, (begin, block.length) ∈ col →
      begin + block.length ≤ piece.length →
      pd_step block_size t index ⟨.waitingForPieceBlock, piece, col⟩
          (.piece index begin block) =
        .ok (⟨.waitingForPieceBlock, setRange piece begin block, col⟩, []) ∧
      collectedSum (hsInsert (begin, block.length) col) = collectedSum col) ∧
    (∀ fuel stream st sent, collectedSum st.collected_blocks = st.piece.length →
      pd_loop block_size t index (fuel + 1) stream st sent = .ok (st.piece, sent)) ∧
    (∀ fuel stream st sent piece sent2,
      pd_loop block_size t index fuel stream st sent = .ok (piece, sent2) →
      ∃ st2 : PDState, piece = st2.piece ∧
        collectedSum st2.collected_blocks = st2.piece.length) ∧
    (∀ fuel st sent, collectedSum st.collected_blocks ≠ st.piece.length →
      ∃ e, pd_loop block_size t index fuel [] st sent = .error e) := by
  refine ⟨?_, ?_, ?_, ?_⟩
  · intro piece col begin block hmem hfit
    constructor
    · simp [pd_step, hfit, hsInsert, hmem]
    · rw [hsInsert, if_pos hmem]
  · intro fuel stream st sent hdone
    rw [pd_loop, if_pos hdone]
  · intro fuel
    induction fuel with
    | zero =>
      intro stream st sent piece sent2 h
      exact absurd h (by simp [pd_loop])
    | succ f ih =>
      intro stream st sent piece sent2 h
      rw [pd_loop] at h
      by_cases hdone : collectedSum st.collected_blocks = st.piece.length
      · rw [if_pos hdone] at h
        rw [Except.ok.injEq, Prod.mk.injEq] at h
        exact ⟨st, h.1.symm, hdone⟩
      · rw [if_neg hdone] at h
        split at h
        · exact absurd h (by simp)
        · rename_i msg stream2 hr
          split at h
          · exact absurd h (by simp)
          · rename_i st2 out hstep
            exact ih stream2 st2 (sent ++ out) piece sent2 h
  · intro fuel st sent hne
    cases fuel with
    | zero => exact ⟨_, rfl⟩
    | succ f =>
      rw [pd_loop, if_neg hne]
      exact ⟨_, rfl⟩

/-- C10 witness: the completion theorem applied to concrete states — a
duplicate `(0, 3)` key leaves the sum at 3, a complete state returns
immediately on an empty stream, and an incomplete state fails on an empty
stream. -/
theorem C10_completion_witness :
    (pd_step 16384 mismatchTorrent 0 ⟨.waitingForPieceBlock, [9, 9, 9], [(0, 3)]⟩
        (.piece 0 0 [1, 2, 3]) =
      .ok (⟨.waitingForPieceBlock, setRange [9, 9, 9] 0 [1, 2, 3], [(0, 3)]⟩, []) ∧
     collectedSum (hsInsert (0, 3) [(0, 3)]) = collectedSum [(0, 3)]) ∧
    pd_loop 16384 mismatchTorrent 0 1 [] ⟨.waitingForPieceBlock, [1, 2, 3], [(0, 3)]⟩ [] =
      .ok ([1, 2, 3], []) ∧
    (∃ e, pd_loop 16384 mismatchTorrent 0 5 [] ⟨.waitingForBitField, [0, 0, 0], []⟩ [] =
      .error e) :=
  have T := C10_completion 16384 mismatchTorrent 0
  ⟨T.1 [9, 9, 9] [(0, 3)] 0 [1, 2, 3] (by decide) (by decide),
   T.2.1 0 [] ⟨.waitingForPieceBlock, [1, 2, 3], [(0, 3)]⟩ [] (by decide),
   T.2.2.2 5 ⟨.waitingForBitField, [0, 0, 0], []⟩ [] (by decide)⟩

/-! ## C5: tracker URL construction -/

theorem info_hash_param_eq (bytes : List Nat) :
    info_hash_param bytes =
      (bytes.map (fun b => ['%', hexChar (b / 16), hexChar (b % 16)])).flatten := by
  induction bytes with
  | nil => rfl
  | cons b rest ih =>
    have h1 : chunks2 (hexEncode (b :: rest)) =
        [hexChar (b / 16), hexChar (b % 16)] :: chunks2 (hexEncode rest) := rfl
    simp only [info_hash_param, h1, List.map_cons, List.flatten_cons]
    rw [show ((chunks2 (hexEncode rest)).map (fun i => '%' :: i)).flatten =
          info_hash_param rest from rfl, ih]

theorem formUrl_digit (d : Nat) (hd : d < 10) :
    formUrlEncodeChar (Char.ofNat (48 + d)) = [Char.ofNat (48 + d)] := by
  interval_cases d <;> decide

theorem natDigitsAux_form :
    ∀ fuel n, ∀ c ∈ natDigitsAux fuel n, ∃ d, d < 10 ∧ c = Char.ofNat (48 + d) := by
  intro fuel
  induction fuel with
  | zero => intro n c hc; exact absurd hc (List.not_mem_nil c)
  | succ f ih =>
    intro n c hc
    rw [natDigitsAux] at hc
    by_cases h : n < 10
    · rw [if_pos h] at hc
      rw [List.mem_singleton] at hc
      exact ⟨n, h, hc⟩
    · rw [if_neg h] at hc
      rcases List.mem_append.mp hc with h1 | h1
      · exact ih _ c h1
      · rw [List.mem_singleton] at h1
        exact ⟨n % 10, Nat.mod_lt _ (by omega), h1⟩

theorem flatten_map_singleton {α : Type} (f : α → List α) :
    ∀ l : List α, (∀ c ∈ l, f c = [c]) → (l.map f).flatten = l := by
  intro l
  induction l with
  | nil => intro _; rfl
  | cons c rest ih =>
    intro h
    rw [List.map_cons, List.flatten_cons, h c (List.mem_cons_self _ _),
        ih (fun x hx => h x (List.mem_cons_of_mem _ hx))]
    rfl

theorem natChars_formUrl (n : Nat) :
    ((natChars n).map formUrlEncodeChar).flatten = natChars n := by
  refine flatten_map_singleton _ _ ?_
  intro c hc
  obtain ⟨d, hd, rfl⟩ := natDigitsAux_form _ _ c hc
  exact formUrl_digit d hd

set_option maxRecDepth 40000 in
/-- C5: the tracker URL is exactly
`<announce>?info_hash=<20 bytes each as %xx in lowercase hex>&peer_id=alice_is_1_feet_tall&port=6881&uploaded=0&downloaded=0&left=<N>&compact=1`,
and on the Scenario D inputs it equals the expected URL character for
character. -/
theorem C5_tracker_url (announce : List Char) (ihash : List Nat) (left : Nat)
    (hlen : ihash.length = 20) (hbytes : ∀ b ∈ ihash, b < 256) :
    tracker_url announce ihash (some left) =
      announce ++ "?info_hash=".data ++
        (ihash.map (fun b => ['%', hexChar (b / 16), hexChar (b % 16)])).flatten ++
        "&peer_id=alice_is_1_feet_tall&port=6881&uploaded=0&downloaded=0&left=".data ++
        natChars left ++ "&compact=1".data ∧
    tracker_url "http://127.0.0.1:44381/announce".data scenarioHash (some 2097152) =
      ("http://127.0.0.1:44381/announce?info_hash=%a1%8a%79%fa%44%e0%45%b1%e1" ++
       "%38%79%16%6d%35%82%3e%84%84%19%f8&peer_id=alice_is_1_feet_tall&port=6881" ++
       "&uploaded=0&downloaded=0&left=2097152&compact=1").data := by
  constructor
  · simp only [tracker_url, trackerParams, List.map_cons, List.map_nil,
               List.flatten_cons, List.flatten_nil]
    rw [info_hash_param_eq]
    have h5 : encodePair ("left".data, natChars left) =
        "&left=".data ++ natChars left := by
      simp only [encodePair]
      rw [show (("left".data : List Char).map formUrlEncodeChar).flatten =
            "left".data from by decide]
      rw [natChars_formUrl]
      rfl
    rw [h5,
        show encodePair ("peer_id".data, PEER_ID.data) =
          "&peer_id=alice_is_1_feet_tall".data from by decide,
        show encodePair ("port".data, "6881".data) = "&port=6881".data from by decide,
        show encodePair ("uploaded".data, "0".data) = "&uploaded=0".data from by decide,
        show encodePair ("downloaded".data, "0".data) =
          "&downloaded=0".data from by decide,
        show encodePair ("compact".data, "1".data) = "&compact=1".data from by decide]
    simp [List.append_assoc]
  · decide

set_option maxRecDepth 40000 in
/-- C5 witness: the theorem applied to Scenario D's announce URL, info
hash and `left` value. -/
theorem C5_tracker_url_witness :
    (scenarioHash.length = 20 ∧ ∀ b ∈ scenarioHash, b < 256) ∧
    (tracker_url "http://127.0.0.1:44381/announce".data scenarioHash (some 2097152) =
      "http://127.0.0.1:44381/announce".data ++ "?info_hash=".data ++
        (scenarioHash.map (fun b => ['%', hexChar (b / 16), hexChar (b % 16)])).flatten ++
        "&peer_id=alice_is_1_feet_tall&port=6881&uploaded=0&downloaded=0&left=".data ++
        natChars 2097152 ++ "&compact=1".data ∧
     tracker_url "http://127.0.0.1:44381/announce".data scenarioHash (some 2097152) =
      ("http://127.0.0.1:44381/announce?info_hash=%a1%8a%79%fa%44%e0%45%b1%e1" ++
       "%38%79%16%6d%35%82%3e%84%84%19%f8&peer_id=alice_is_1_feet_tall&port=6881" ++
       "&uploaded=0&downloaded=0&left=2097152&compact=1").data) :=
  ⟨⟨by decide, by decide⟩,
   C5_tracker_url "http://127.0.0.1:44381/announce".data scenarioHash 2097152
     (by decide) (by decide)⟩

end Bt
